import Mathlib

/-!
Verification of the p2p-call session-coordination subsystem.

The first half embeds the socket.io coordinator server (the `io.on`
handlers over the in-memory `participants` Map and `moderators` Set):
participant join, moderator connect, queue request, inspection start,
admit, remove, inspection cancel, and transport disconnect.  JavaScript
`Map` iteration is insertion order, and `Map.set` on an existing key
updates the value in place while keeping the key's original position;
the registry is therefore modelled as a `List Participant` with exactly
those update semantics.  A JavaScript `Set` is modelled as a duplicate
free `List String` with order-preserving add and delete.

The second half embeds the client-side `useWebRTC` negotiation hook
(the variant with the `isProcessingOffer` re-entrancy guard and the
signaling-state checks, the one exercised by the test suite): the
engine state holds the optional `RTCPeerConnection` with its signaling
state, descriptions and the candidates actually handed to
`addIceCandidate`, mirroring the browser rule that `addIceCandidate`
fails when no remote description is set (the hook catches and logs
that failure, losing the candidate).
-/

/-- Participant lifecycle status, the four string values used by the server. -/
inductive Status where
  | waiting
  | inspecting
  | admitted
  | removed
deriving DecidableEq, Repr

/-- A registry record, as stored in the server's `participants` Map
(`{ id, name, browser, os, deviceType, status, socketId }`). -/
structure Participant where
  id : String
  name : String
  browser : String
  os : String
  deviceType : String
  status : Status
  socketId : String
deriving DecidableEq, Repr

/-- Messages emitted by the coordinator, tagged with the target socket id. -/
inductive ServerMsg where
  | participantJoined (target : String)
      (id name browser os deviceType : String) (status : Status)
  | queueUpdate (target : String) (snapshot : List Participant)
  | inspectionStarted (target : String) (moderatorSocketId : String)
  | inspectionReady (target : String) (participantSocketId : String)
  | participantAdmitted (target : String)
  | participantRemoved (target : String)
  | queueNext (target : String) (next : Option Participant)
  | inspectionCancelled (target : String)
  | deviceSuggestion (target : String) (deviceId deviceLabel : String)
deriving DecidableEq, Repr

/-- The socket id a coordinator message is delivered to. -/
def ServerMsg.target : ServerMsg → String
  | .participantJoined t _ _ _ _ _ _ => t
  | .queueUpdate t _ => t
  | .inspectionStarted t _ => t
  | .inspectionReady t _ => t
  | .participantAdmitted t => t
  | .participantRemoved t => t
  | .queueNext t _ => t
  | .inspectionCancelled t => t
  | .deviceSuggestion t _ _ => t

/-- The coordinator's in-memory storage: the `participants` Map (insertion
order) and the `moderators` Set (insertion order, no duplicates). -/
structure ServerState where
  participants : List Participant
  moderators : List String
deriving DecidableEq, Repr

/-- `participants.get(id)`: the entry stored under key `id`. -/
def mapGet (l : List Participant) (id : String) : Option Participant :=
  l.find? (fun q => q.id == id)

/-- `participants.set(p.id, p)`: replace in place when the key exists
(JavaScript `Map.set` keeps the original insertion position), append
otherwise. -/
def mapSet (l : List Participant) (p : Participant) : List Participant :=
  if l.any (fun q => q.id == p.id) then
    l.map (fun q => if q.id == p.id then p else q)
  else
    l ++ [p]

/-- `participant.status = s` for the record stored under `id`: the server
mutates the object held in the Map, leaving its position untouched. -/
def setStatus (l : List Participant) (id : String) (s : Status) : List Participant :=
  l.map (fun q => if q.id == id then { q with status := s } else q)

/-- `moderators.add(a)`: JavaScript `Set.add`, a no-op when present. -/
def setAddStr (l : List String) (a : String) : List String :=
  if a ∈ l then l else l ++ [a]

/-- `moderators.delete(a)`: JavaScript `Set.delete`. -/
def setDeleteStr (l : List String) (a : String) : List String :=
  l.filter (fun m => !(m == a))

/-- The `for ... of participants.entries()` loop of the disconnect handler:
delete the first entry whose `socketId` matches, then `break`. -/
def removeFirstBySocket : List Participant → String → List Participant
  | [], _ => []
  | q :: qs, s => if q.socketId == s then qs else q :: removeFirstBySocket qs s

/-- `socket.on('participant:join')`: store the record with status `waiting`,
notify every moderator with the joined record's public fields, and send the
updated queue back to the joining socket. -/
def joinHandler (st : ServerState) (sock id name browser os deviceType : String) :
    ServerState × List ServerMsg :=
  let p : Participant :=
    { id := id, name := name, browser := browser, os := os,
      deviceType := deviceType, status := Status.waiting, socketId := sock }
  let parts := mapSet st.participants p
  ({ st with participants := parts },
    st.moderators.map (fun m =>
      ServerMsg.participantJoined m id name browser os deviceType Status.waiting)
    ++ [ServerMsg.queueUpdate sock parts])

/-- `socket.on('moderator:connect')`: add the socket to the moderator set and
send it the current queue. -/
def moderatorConnectHandler (st : ServerState) (sock : String) :
    ServerState × List ServerMsg :=
  ({ st with moderators := setAddStr st.moderators sock },
    [ServerMsg.queueUpdate sock st.participants])

/-- `socket.on('queue:request')`: send the current queue back, touching
nothing ("don't add to moderators again"). -/
def queueRequestHandler (st : ServerState) (sock : String) :
    ServerState × List ServerMsg :=
  (st, [ServerMsg.queueUpdate sock st.participants])

/-- `socket.on('inspection:start')`: when the id is present, set its status
to `inspecting` and exchange the two socket addresses; otherwise nothing. -/
def inspectionStartHandler (st : ServerState) (sock pid : String) :
    ServerState × List ServerMsg :=
  match mapGet st.participants pid with
  | none => (st, [])
  | some p =>
    let parts := setStatus st.participants pid Status.inspecting
    ({ st with participants := parts },
      [ServerMsg.inspectionStarted p.socketId sock,
       ServerMsg.inspectionReady sock p.socketId])

/-- `socket.on('participant:admit')`: when the id is present, set its status
to `admitted`, notify the participant, compute the next waiting entry as
`waiting[0]` over the updated registry, send it to the requesting moderator,
and broadcast the updated queue to every moderator. -/
def admitHandler (st : ServerState) (sock pid : String) :
    ServerState × List ServerMsg :=
  match mapGet st.participants pid with
  | none => (st, [])
  | some p =>
    let parts := setStatus st.participants pid Status.admitted
    let next := (parts.filter (fun q => decide (q.status = Status.waiting))).head?
    ({ st with participants := parts },
      ServerMsg.participantAdmitted p.socketId ::
      ServerMsg.queueNext sock next ::
      st.moderators.map (fun m => ServerMsg.queueUpdate m parts))

/-- `socket.on('participant:remove')`: same shape as admit with status
`removed`. -/
def removeHandler (st : ServerState) (sock pid : String) :
    ServerState × List ServerMsg :=
  match mapGet st.participants pid with
  | none => (st, [])
  | some p =>
    let parts := setStatus st.participants pid Status.removed
    let next := (parts.filter (fun q => decide (q.status = Status.waiting))).head?
    ({ st with participants := parts },
      ServerMsg.participantRemoved p.socketId ::
      ServerMsg.queueNext sock next ::
      st.moderators.map (fun m => ServerMsg.queueUpdate m parts))

/-- `socket.on('inspection:cancel')`: when the id is present, set its status
back to `waiting`, notify the participant, and broadcast the updated queue. -/
def cancelHandler (st : ServerState) (sock pid : String) :
    ServerState × List ServerMsg :=
  match mapGet st.participants pid with
  | none => (st, [])
  | some p =>
    let parts := setStatus st.participants pid Status.waiting
    ({ st with participants := parts },
      ServerMsg.inspectionCancelled p.socketId ::
      st.moderators.map (fun m => ServerMsg.queueUpdate m parts))

/-- `socket.on('disconnect')`: drop the socket from the moderator set, then
scan the registry entries in order, delete the first participant bound to
the socket and broadcast the updated queue to the remaining moderators
(nothing is broadcast when no participant matches). -/
def disconnectHandler (st : ServerState) (sock : String) :
    ServerState × List ServerMsg :=
  let mods := setDeleteStr st.moderators sock
  match st.participants.find? (fun q => q.socketId == sock) with
  | none => ({ participants := st.participants, moderators := mods }, [])
  | some _ =>
    let parts := removeFirstBySocket st.participants sock
    ({ participants := parts, moderators := mods },
      mods.map (fun m => ServerMsg.queueUpdate m parts))

/-- The status stored under `id`, when present. -/
def statusOf (st : ServerState) (id : String) : Option Status :=
  (mapGet st.participants id).map Participant.status

/-! ### Peer Negotiation Engine (the `useWebRTC` hook) -/

/-- `RTCPeerConnection.signalingState` values reachable through the hook. -/
inductive SignalingPhase where
  | stable
  | haveLocalOffer
  | haveRemoteOffer
  | closedPhase
deriving DecidableEq, Repr

/-- `RTCPeerConnection.connectionState` values. -/
inductive ConnPhase where
  | fresh
  | connecting
  | connected
  | disconnected
  | failed
  | closedConn
deriving DecidableEq, Repr

/-- The slice of an `RTCPeerConnection` the negotiation handlers touch:
signaling and connection state, the two descriptions, how many senders were
added by `addTrack`, and the candidates successfully handed to
`addIceCandidate`. -/
structure PeerConn where
  signalingState : SignalingPhase
  connectionState : ConnPhase
  remoteDesc : Option String
  localDesc : Option String
  senders : Nat
  applied : List String
deriving DecidableEq, Repr

/-- `new RTCPeerConnection(ICE_SERVERS)`. -/
def freshPeerConn : PeerConn :=
  { signalingState := SignalingPhase.stable, connectionState := ConnPhase.fresh,
    remoteDesc := none, localDesc := none, senders := 0, applied := [] }

/-- The hook's mutable refs: `peerConnection.current`, `remoteSocketIdRef`,
the `isProcessingOffer` guard, and the `localStream` (as its track count). -/
structure Engine where
  peerConnection : Option PeerConn
  remoteSocketId : Option String
  isProcessingOffer : Bool
  localStream : Option Nat
deriving DecidableEq, Repr

/-- Browser `addIceCandidate`: fails with an `InvalidStateError` when no
remote description has been set, otherwise records the candidate. -/
def addIceCandidate (pc : PeerConn) (c : String) : Except String PeerConn :=
  if pc.remoteDesc.isSome then
    Except.ok { pc with applied := pc.applied ++ [c] }
  else
    Except.error "InvalidStateError: no remote description"

/-- The answer SDP `createAnswer` produces for a given remote offer. -/
def answerSdpFor (offer : String) : String := "answer-to:" ++ offer

/-- Messages the engine hands to the signaling service. -/
inductive ClientMsg where
  | answerMsg (dest : String) (sdp : String)
  | offerMsg (dest : String) (sdp : String)
deriving DecidableEq, Repr

/-- The hook's `handleIceCandidate`: with no peer connection the candidate is
simply dropped; with one, `addIceCandidate` is attempted immediately and a
failure (no remote description yet) is caught and logged, losing the
candidate.  There is no buffer. -/
def handleIceCandidate (e : Engine) (c : String) : Engine :=
  match e.peerConnection with
  | none => e
  | some pc =>
    match addIceCandidate pc c with
    | Except.ok pc2 => { e with peerConnection := some pc2 }
    | Except.error _ => e

/-- The hook's `handleAnswer`: only applied when
`signalingState === 'have-local-offer'`; in every other state (or with no
peer connection) the answer is logged and ignored.  Applying the remote
answer moves the connection to `stable`. -/
def handleAnswer (e : Engine) (ans : String) : Engine :=
  match e.peerConnection with
  | none => e
  | some pc =>
    if pc.signalingState = SignalingPhase.haveLocalOffer then
      let pc2 := { pc with remoteDesc := some ans,
                           signalingState := SignalingPhase.stable }
      { e with peerConnection := some pc2 }
    else e

/-- The hook's `handleOffer`: dropped at once when `isProcessingOffer` is
already set (the re-entrancy guard); otherwise the flag is raised, the
remote socket recorded, a peer connection created when none exists (when one
exists it is reused, even closed or failed, since
`initializePeerConnection` returns any existing connection), local tracks
added when a stream exists and no sender was added yet, and — only from
`stable` or `have-local-offer` — the offer applied, an answer created, set
locally and sent back; the flag is lowered on the way out (`finally`). -/
def handleOffer (e : Engine) (offer src : String) : Engine × List ClientMsg :=
  if e.isProcessingOffer then (e, [])
  else
    let pc0 :=
      match e.peerConnection with
      | none => freshPeerConn
      | some pc => pc
    let pc1 :=
      match e.localStream with
      | some n => if pc0.senders = 0 then { pc0 with senders := n } else pc0
      | none => pc0
    if pc1.signalingState = SignalingPhase.stable ∨
        pc1.signalingState = SignalingPhase.haveLocalOffer then
      let pc2 := { pc1 with remoteDesc := some offer,
                            localDesc := some (answerSdpFor offer),
                            signalingState := SignalingPhase.stable }
      ({ e with peerConnection := some pc2, remoteSocketId := some src,
                isProcessingOffer := false },
        [ClientMsg.answerMsg src (answerSdpFor offer)])
    else
      ({ e with peerConnection := some pc1, remoteSocketId := some src,
                isProcessingOffer := false }, [])

/-- The signaling phase seen through the optional peer connection. -/
def enginePhase (e : Engine) : Option SignalingPhase :=
  e.peerConnection.map PeerConn.signalingState

/-- The candidates applied so far, seen through the optional connection. -/
def engineApplied (e : Engine) : Option (List String) :=
  e.peerConnection.map PeerConn.applied

/-! ### Concrete states used by witnesses and counterexamples -/

/-- A registry holding one admitted participant, one moderator observer. -/
def stAdmitted : ServerState :=
  { participants :=
      [{ id := "a", name := "Alice", browser := "ff", os := "linux",
         deviceType := "desktop", status := Status.admitted, socketId := "sA" }],
    moderators := ["m1"] }

/-- Alice then Bob, both waiting, in that join order. -/
def stAliceBob : ServerState :=
  { participants :=
      [{ id := "a", name := "Alice", browser := "ff", os := "linux",
         deviceType := "desktop", status := Status.waiting, socketId := "sA" },
       { id := "b", name := "Bob", browser := "ch", os := "mac",
         deviceType := "laptop", status := Status.waiting, socketId := "sB" }],
    moderators := ["m1"] }

/-- Trace for the queue-order counterexample: Alice, Bob, Carl join in that
order, Alice is admitted, then Alice re-joins (a fresh join, later than
Bob's and Carl's only joins). -/
def stTrace1 : ServerState :=
  (joinHandler { participants := [], moderators := [] }
    "sA" "a" "Alice" "ff" "linux" "desktop").1

def stTrace2 : ServerState :=
  (joinHandler stTrace1 "sB" "b" "Bob" "ch" "mac" "laptop").1

def stTrace3 : ServerState :=
  (joinHandler stTrace2 "sC" "c" "Carl" "sa" "ios" "phone").1

def stTrace4 : ServerState := (admitHandler stTrace3 "m1" "a").1

def stTrace5 : ServerState :=
  (joinHandler stTrace4 "sA2" "a" "Alice" "ff" "linux" "desktop").1

/-- An engine that has sent a local offer and received no answer yet: a peer
connection exists, `have-local-offer`, no remote description. -/
def engHaveLocalOffer : Engine :=
  { peerConnection :=
      some { signalingState := SignalingPhase.haveLocalOffer,
             connectionState := ConnPhase.fresh,
             remoteDesc := none, localDesc := some "offer1",
             senders := 2, applied := [] },
    remoteSocketId := some "peer", isProcessingOffer := false,
    localStream := some 2 }

/-- An engine with no peer connection at all. -/
def engNoPc : Engine :=
  { peerConnection := none, remoteSocketId := none,
    isProcessingOffer := false, localStream := none }

/-- An engine whose peer connection is stable with a remote description. -/
def engStableRemote : Engine :=
  { peerConnection :=
      some { signalingState := SignalingPhase.stable,
             connectionState := ConnPhase.connected,
             remoteDesc := some "offer9", localDesc := some "ans9",
             senders := 2, applied := ["c0"] },
    remoteSocketId := some "peer", isProcessingOffer := false,
    localStream := some 2 }

/-- `engHaveLocalOffer` while an offer is being processed. -/
def engBusy : Engine :=
  { engHaveLocalOffer with isProcessingOffer := true }

/-- What it means to be the earliest waiting participant in registry order:
`none` when nobody waits, otherwise a waiting participant preceded only by
non-waiting entries. -/
def firstWaitingSpec (l : List Participant) : Option Participant → Prop
  | none => ∀ q ∈ l, q.status ≠ Status.waiting
  | some p => p.status = Status.waiting ∧
      ∃ pre post, l = pre ++ p :: post ∧ ∀ q ∈ pre, q.status ≠ Status.waiting

/-! ### Helper lemmas -/

theorem find?_map_of_id_eq (f : Participant → Participant)
    (hf : ∀ q, (f q).id = q.id) (x : String) (l : List Participant) :
    (l.map f).find? (fun q => q.id == x) = (l.find? (fun q => q.id == x)).map f := by
  induction l with
  | nil => rfl
  | cons q qs ih =>
    simp only [List.map_cons, List.find?_cons]
    rw [hf q]
    cases hqx : (q.id == x)
    · simpa using ih
    · simp

theorem setStatus_preserves_id (pid : String) (s : Status) (q : Participant) :
    ((fun q => if q.id == pid then { q with status := s } else q) q).id = q.id := by
  by_cases h : (q.id == pid) = true
  · simp [h]
  · simp [h]

theorem mapGet_setStatus (l : List Participant) (pid x : String) (s : Status) :
    mapGet (setStatus l pid s) x =
      (mapGet l x).map (fun q => if q.id == pid then { q with status := s } else q) := by
  simp only [mapGet, setStatus]
  exact find?_map_of_id_eq _ (setStatus_preserves_id pid s) x l

theorem beq_of_mapGet_some (l : List Participant) (x : String) (q : Participant)
    (hq : mapGet l x = some q) : (q.id == x) = true := by
  simp only [mapGet] at hq
  simpa using List.find?_some hq

theorem statusOf_setStatus_self (l : List Participant) (pid : String) (s : Status)
    (h : (mapGet l pid).isSome) :
    (mapGet (setStatus l pid s) pid).map Participant.status = some s := by
  obtain ⟨q, hq⟩ := Option.isSome_iff_exists.mp h
  have hqid : q.id = pid := by simpa using beq_of_mapGet_some l pid q hq
  rw [mapGet_setStatus, hq]
  simp [hqid]

theorem statusOf_setStatus_other (l : List Participant) (pid : String) (s : Status)
    (x : String) (hx : x ≠ pid) :
    (mapGet (setStatus l pid s) x).map Participant.status =
      (mapGet l x).map Participant.status := by
  rw [mapGet_setStatus]
  cases hq : mapGet l x with
  | none => rfl
  | some q =>
    have hqid : q.id = x := by simpa using beq_of_mapGet_some l x q hq
    simp [hqid, hx]

theorem head_filter_firstWaiting (l : List Participant) :
    firstWaitingSpec l
      ((l.filter (fun q => decide (q.status = Status.waiting))).head?) := by
  induction l with
  | nil => simp [firstWaitingSpec]
  | cons q qs ih =>
    by_cases hw : q.status = Status.waiting
    · rw [List.filter_cons_of_pos (by simpa using hw)]
      exact ⟨hw, [], qs, rfl, by intro r hr; simp at hr⟩
    · rw [List.filter_cons_of_neg (by simpa using hw)]
      cases hh : (qs.filter (fun r => decide (r.status = Status.waiting))).head? with
      | none =>
        have hspec := ih
        rw [hh] at hspec
        intro r hr
        rcases List.mem_cons.mp hr with hr1 | hr2
        · rw [hr1]; exact hw
        · exact hspec r hr2
      | some p =>
        have hspec := ih
        rw [hh] at hspec
        obtain ⟨hps, pre, post, hdec, hpre⟩ := hspec
        refine ⟨hps, q :: pre, post, by rw [List.cons_append, hdec], ?_⟩
        intro r hr
        rcases List.mem_cons.mp hr with hr1 | hr2
        · rw [hr1]; exact hw
        · exact hpre r hr2

theorem noop_of_absent (st : ServerState) (sock pid : String)
    (h : mapGet st.participants pid = none) :
    inspectionStartHandler st sock pid = (st, [])
    ∧ admitHandler st sock pid = (st, [])
    ∧ removeHandler st sock pid = (st, [])
    ∧ cancelHandler st sock pid = (st, []) := by
  refine ⟨?_, ?_, ?_, ?_⟩ <;>
    simp [inspectionStartHandler, admitHandler, removeHandler, cancelHandler, h]

theorem removeFirst_eq_filter (l : List Participant) (a : String)
    (h : (l.filter (fun q => q.socketId == a)).length ≤ 1) :
    removeFirstBySocket l a = l.filter (fun q => !(q.socketId == a)) := by
  induction l with
  | nil => rfl
  | cons q qs ih =>
    by_cases hq : (q.socketId == a) = true
    · have hlen : (qs.filter (fun r => r.socketId == a)).length = 0 := by
        simp only [List.filter_cons, hq, if_true, List.length_cons] at h
        omega
      have hfe : qs.filter (fun r => r.socketId == a) = [] :=
        List.length_eq_zero.mp hlen
      have hall : ∀ r ∈ qs, (r.socketId == a) = false := by
        intro r hr
        by_contra hc
        have hrt : (r.socketId == a) = true := by
          cases hcc : (r.socketId == a)
          · exact absurd hcc hc
          · rfl
        have : r ∈ qs.filter (fun r => r.socketId == a) :=
          List.mem_filter.mpr ⟨hr, hrt⟩
        rw [hfe] at this
        cases this
      have hself : qs.filter (fun r => !(r.socketId == a)) = qs := by
        apply List.filter_eq_self.mpr
        intro r hr
        simp [hall r hr]
      simp only [removeFirstBySocket, hq, if_true, List.filter_cons]
      simp [hq, hself]
    · have hq' : (q.socketId == a) = false := by
        cases hcc : (q.socketId == a)
        · rfl
        · exact absurd hcc hq
      have hrest : (qs.filter (fun r => r.socketId == a)).length ≤ 1 := by
        simp only [List.filter_cons, hq'] at h
        simpa using h
      simp only [removeFirstBySocket, hq', List.filter_cons]
      simp only [hq', Bool.not_false, if_true, if_false]
      rw [ih hrest]
      simp

theorem mapGet_none_after_remove (l : List Participant) (a : String) (p : Participant)
    (hids : (l.map (fun q => q.id)).Nodup)
    (hp : p ∈ l) (hpa : p.socketId = a) :
    mapGet (l.filter (fun q => !(q.socketId == a))) p.id = none := by
  rw [mapGet, List.find?_eq_none]
  intro q hq hmatch
  have hqmem := (List.mem_filter.mp hq).1
  have hqa := (List.mem_filter.mp hq).2
  have hqid : q.id = p.id := by simpa using hmatch
  have hqp : q = p := List.inj_on_of_nodup_map hids hqmem hp hqid
  rw [hqp, hpa] at hqa
  simp at hqa

/-! ### Claim theorems -/

/-- C1 (counterexample): the claim says a record that has reached `admitted`
never changes status again and that `inspection:start` on an admitted
participant leaves the status unchanged.  On the concrete registry
`stAdmitted`, where "a" is admitted, `inspection:start` moves "a" to
`inspecting`. -/
theorem C1_cex :
    statusOf stAdmitted "a" = some Status.admitted
    ∧ statusOf (inspectionStartHandler stAdmitted "m1" "a").1 "a" =
        some Status.inspecting := by
  exact ⟨by decide, by decide⟩

/-- C1 (amended): whenever the identity is present, each coordinator
operation sets that record's status to its fixed target regardless of the
current status — `inspection:start` to `inspecting`, admit to `admitted`,
remove to `removed`, `inspection:cancel` to `waiting` — so `admitted` and
`removed` are not terminal; every other identity's status is untouched.
(Statuses always lie in the four-value `Status` type by construction.) -/
theorem C1_status_unconditional (st : ServerState) (sock pid : String)
    (h : (mapGet st.participants pid).isSome) :
    (statusOf (inspectionStartHandler st sock pid).1 pid = some Status.inspecting
      ∧ statusOf (admitHandler st sock pid).1 pid = some Status.admitted
      ∧ statusOf (removeHandler st sock pid).1 pid = some Status.removed
      ∧ statusOf (cancelHandler st sock pid).1 pid = some Status.waiting)
    ∧ ∀ x : String, x ≠ pid →
        statusOf (inspectionStartHandler st sock pid).1 x = statusOf st x
        ∧ statusOf (admitHandler st sock pid).1 x = statusOf st x
        ∧ statusOf (removeHandler st sock pid).1 x = statusOf st x
        ∧ statusOf (cancelHandler st sock pid).1 x = statusOf st x := by
  obtain ⟨p, hp⟩ := Option.isSome_iff_exists.mp h
  constructor
  · refine ⟨?_, ?_, ?_, ?_⟩ <;>
    · simp only [inspectionStartHandler, admitHandler, removeHandler,
        cancelHandler, hp, statusOf]
      exact statusOf_setStatus_self _ _ _ h
  · intro x hx
    refine ⟨?_, ?_, ?_, ?_⟩ <;>
    · simp only [inspectionStartHandler, admitHandler, removeHandler,
        cancelHandler, hp, statusOf]
      exact statusOf_setStatus_other _ _ _ _ hx

/-- C1 (witness): the amended theorem applied to the two-participant
registry `stAliceBob` at identity "a". -/
theorem C1_witness :
    statusOf (inspectionStartHandler stAliceBob "m1" "a").1 "a" =
        some Status.inspecting
    ∧ statusOf (admitHandler stAliceBob "m1" "a").1 "b" = statusOf stAliceBob "b" := by
  refine ⟨(C1_status_unconditional stAliceBob "m1" "a" (by decide)).1.1, ?_⟩
  exact ((C1_status_unconditional stAliceBob "m1" "a" (by decide)).2 "b"
    (by decide)).2.1

/-- C2 (counterexample): the claim says "next" equals the earliest-joined
waiting participant (FIFO by join time).  In the trace behind `stTrace5`,
Alice, Bob and Carl join in that order, Alice is admitted and then re-joins
— so Alice's only live join is *later* than Bob's — yet after admitting
Carl the computed next candidate is Alice (kept at the front of the Map's
insertion order), not Bob, although Bob is waiting. -/
theorem C2_cex :
    stTrace5.participants.map (fun q => (q.id, q.status)) =
      [("a", Status.waiting), ("b", Status.waiting), ("c", Status.waiting)]
    ∧ (admitHandler stTrace5 "m1" "c").2[1]? =
        some (ServerMsg.queueNext "m1" (some
          { id := "a", name := "Alice", browser := "ff", os := "linux",
            deviceType := "desktop", status := Status.waiting,
            socketId := "sA2" })) := by
  exact ⟨by decide, by decide⟩

/-- C2 (amended): the "next" candidate computed by admit and remove is the
first participant with status `waiting` in the registry's stored (Map
insertion) order — in which a re-joined identity keeps its original
position — or none when nobody is waiting; absent re-joins this insertion
order is exactly join order. -/
theorem C2_next_first_waiting (st : ServerState) (sock pid : String)
    (p : Participant) (hp : mapGet st.participants pid = some p) :
    (∃ next,
        (admitHandler st sock pid).2 =
          ServerMsg.participantAdmitted p.socketId ::
          ServerMsg.queueNext sock next ::
          st.moderators.map (fun m =>
            ServerMsg.queueUpdate m (setStatus st.participants pid Status.admitted))
        ∧ firstWaitingSpec (setStatus st.participants pid Status.admitted) next)
    ∧ (∃ next,
        (removeHandler st sock pid).2 =
          ServerMsg.participantRemoved p.socketId ::
          ServerMsg.queueNext sock next ::
          st.moderators.map (fun m =>
            ServerMsg.queueUpdate m (setStatus st.participants pid Status.removed))
        ∧ firstWaitingSpec (setStatus st.participants pid Status.removed) next) := by
  constructor
  · refine ⟨_, ?_, head_filter_firstWaiting _⟩
    simp only [admitHandler, hp]
  · refine ⟨_, ?_, head_filter_firstWaiting _⟩
    simp only [removeHandler, hp]

/-- C2 (witness): the amended theorem applied to `stAliceBob` at "a". -/
theorem C2_witness :
    (∃ next,
        (admitHandler stAliceBob "m1" "a").2 =
          ServerMsg.participantAdmitted "sA" ::
          ServerMsg.queueNext "m1" next ::
          stAliceBob.moderators.map (fun m =>
            ServerMsg.queueUpdate m
              (setStatus stAliceBob.participants "a" Status.admitted))
        ∧ firstWaitingSpec
            (setStatus stAliceBob.participants "a" Status.admitted) next)
    ∧ (∃ next,
        (removeHandler stAliceBob "m1" "a").2 =
          ServerMsg.participantRemoved "sA" ::
          ServerMsg.queueNext "m1" next ::
          stAliceBob.moderators.map (fun m =>
            ServerMsg.queueUpdate m
              (setStatus stAliceBob.participants "a" Status.removed))
        ∧ firstWaitingSpec
            (setStatus stAliceBob.participants "a" Status.removed) next) :=
  C2_next_first_waiting stAliceBob "m1" "a"
    { id := "a", name := "Alice", browser := "ff", os := "linux",
      deviceType := "desktop", status := Status.waiting, socketId := "sA" }
    (by decide)

/-- C3 (counterexample): the claim says a re-join moves the identity to the
back of the queue.  In `stAliceBob` the join order is "a" then "b"; after
"a" re-joins, the registry order is still "a" before "b" — "a" is not after
every other registered participant. -/
theorem C3_cex :
    stAliceBob.participants.map (fun q => q.id) = ["a", "b"]
    ∧ (joinHandler stAliceBob "sA2" "a" "Alice" "ff" "linux"
        "desktop").1.participants.map (fun q => q.id) = ["a", "b"] := by
  exact ⟨by decide, by decide⟩

/-- C3 (amended): a second `participant:join` with an identity already
present replaces the record in place with a fresh `waiting` record bound to
the new socket — the sequence of registry identities, and hence the
identity's queue position, is unchanged (the record is *not* moved to the
back). -/
theorem C3_rejoin_in_place (st : ServerState)
    (sock id name browser os deviceType : String)
    (h : (mapGet st.participants id).isSome) :
    (joinHandler st sock id name browser os deviceType).1.participants =
      st.participants.map (fun q =>
        if q.id == id then
          { id := id, name := name, browser := browser, os := os,
            deviceType := deviceType, status := Status.waiting,
            socketId := sock }
        else q)
    ∧ (joinHandler st sock id name browser os deviceType).1.participants.map
        (fun q => q.id) = st.participants.map (fun q => q.id)
    ∧ mapGet (joinHandler st sock id name browser os deviceType).1.participants
        id =
        some { id := id, name := name, browser := browser, os := os,
               deviceType := deviceType, status := Status.waiting,
               socketId := sock } := by
  have hany : st.participants.any (fun q => q.id == id) = true := by
    obtain ⟨q, hq⟩ := Option.isSome_iff_exists.mp h
    simp only [mapGet] at hq
    have hmem := List.mem_of_find?_eq_some hq
    have hfs := List.find?_some hq
    exact List.any_eq_true.mpr ⟨q, hmem, hfs⟩
  have hpres : ∀ q : Participant,
      ((fun q => if q.id == id then
          ({ id := id, name := name, browser := browser, os := os,
             deviceType := deviceType, status := Status.waiting,
             socketId := sock } : Participant)
        else q) q).id = q.id := by
    intro q
    by_cases hh : (q.id == id) = true
    · have : q.id = id := by simpa using hh
      simp [hh, this]
    · simp [hh]
  refine ⟨?_, ?_, ?_⟩
  · simp only [joinHandler, mapSet, hany, if_true]
  · simp only [joinHandler, mapSet, hany, if_true, List.map_map]
    exact List.map_congr_left (fun q _ => hpres q)
  · simp only [joinHandler, mapSet, hany, if_true, mapGet]
    rw [find?_map_of_id_eq _ hpres id st.participants]
    obtain ⟨q, hq⟩ := Option.isSome_iff_exists.mp h
    simp only [mapGet] at hq
    rw [hq]
    have hfs := List.find?_some hq
    have hq2 : q.id = id := by simpa using hfs
    simp [hq2]

/-- C3 (witness): the amended theorem applied to a re-join of "a" in
`stAliceBob`. -/
theorem C3_witness :
    (joinHandler stAliceBob "sA2" "a" "Alice2" "ch" "win" "tablet").1.participants =
      stAliceBob.participants.map (fun q =>
        if q.id == "a" then
          { id := "a", name := "Alice2", browser := "ch", os := "win",
            deviceType := "tablet", status := Status.waiting,
            socketId := "sA2" }
        else q)
    ∧ (joinHandler stAliceBob "sA2" "a" "Alice2" "ch" "win"
        "tablet").1.participants.map (fun q => q.id) =
        stAliceBob.participants.map (fun q => q.id)
    ∧ mapGet (joinHandler stAliceBob "sA2" "a" "Alice2" "ch" "win"
        "tablet").1.participants "a" =
        some { id := "a", name := "Alice2", browser := "ch", os := "win",
               deviceType := "tablet", status := Status.waiting,
               socketId := "sA2" } :=
  C3_rejoin_in_place stAliceBob "sA2" "a" "Alice2" "ch" "win" "tablet" (by decide)

/-- C4 (counterexample): the claim says candidates arriving before a remote
description are stored and later applied in order once the remote
description is set.  On `engHaveLocalOffer` (offer sent, no remote
description) two candidates arrive and leave the engine unchanged — nothing
is stored — and after the remote description is applied by the answer, the
set of applied candidates is still empty: both candidates were lost. -/
theorem C4_cex :
    handleIceCandidate (handleIceCandidate engHaveLocalOffer "c1") "c2" =
      engHaveLocalOffer
    ∧ engineApplied (handleAnswer
        (handleIceCandidate (handleIceCandidate engHaveLocalOffer "c1") "c2")
        "ans") = some []
    ∧ (handleAnswer
        (handleIceCandidate (handleIceCandidate engHaveLocalOffer "c1") "c2")
        "ans").peerConnection.map PeerConn.remoteDesc = some (some "ans") := by
  exact ⟨by decide, by decide, by decide⟩

/-- C4 (amended): `handleIceCandidate` never buffers.  With no peer
connection the candidate is discarded outright; with a peer connection but
no remote description the attempted `addIceCandidate` fails, the error is
caught and logged, and the engine is left unchanged (the candidate is
lost); only with a remote description already set is the candidate applied,
immediately and in arrival order.  Applying an answer flushes nothing. -/
theorem C4_no_buffering (e : Engine) (c : String) :
    (e.peerConnection = none → handleIceCandidate e c = e)
    ∧ (∀ pc, e.peerConnection = some pc → pc.remoteDesc = none →
        handleIceCandidate e c = e)
    ∧ (∀ pc, e.peerConnection = some pc → pc.remoteDesc.isSome →
        handleIceCandidate e c =
          { e with
            peerConnection := some ({ pc with applied := pc.applied ++ [c] }) })
    ∧ (∀ ans, engineApplied (handleAnswer e ans) = engineApplied e) := by
  refine ⟨?_, ?_, ?_, ?_⟩
  · intro hn
    simp [handleIceCandidate, hn]
  · intro pc hpc hrd
    simp [handleIceCandidate, hpc, addIceCandidate, hrd]
  · intro pc hpc hrd
    simp [handleIceCandidate, hpc, addIceCandidate, hrd]
  · intro ans
    cases hpc : e.peerConnection with
    | none => simp [handleAnswer, hpc]
    | some pc =>
      by_cases hs : pc.signalingState = SignalingPhase.haveLocalOffer
      · simp [handleAnswer, hpc, hs, engineApplied]
      · simp [handleAnswer, hpc, hs]

/-- C4 (witness): the amended theorem applied to the concrete engines
`engHaveLocalOffer` (no remote description), `engNoPc` (no connection) and
`engStableRemote` (remote description present). -/
theorem C4_witness :
    handleIceCandidate engHaveLocalOffer "c1" = engHaveLocalOffer
    ∧ handleIceCandidate engNoPc "c1" = engNoPc
    ∧ engineApplied (handleIceCandidate engStableRemote "c1") = some ["c0", "c1"]
    ∧ engineApplied (handleAnswer engHaveLocalOffer "ans") =
        engineApplied engHaveLocalOffer := by
  refine ⟨?_, ?_, ?_, ?_⟩
  · exact (C4_no_buffering engHaveLocalOffer "c1").2.1 _ rfl rfl
  · exact (C4_no_buffering engNoPc "c1").1 rfl
  · rw [(C4_no_buffering engStableRemote "c1").2.2.1 _ rfl (by decide)]
    decide
  · exact (C4_no_buffering engHaveLocalOffer "c1").2.2.2 "ans"

/-- C5: each of `inspection:start`, `participant:admit`,
`participant:remove` and `inspection:cancel` on an identity absent from the
registry is a complete no-op: the state is returned unchanged and no
message is emitted to anyone. -/
theorem C5_absent_noop (st : ServerState) (sock pid : String)
    (h : mapGet st.participants pid = none) :
    inspectionStartHandler st sock pid = (st, [])
    ∧ admitHandler st sock pid = (st, [])
    ∧ removeHandler st sock pid = (st, [])
    ∧ cancelHandler st sock pid = (st, []) :=
  noop_of_absent st sock pid h

/-- C5 (witness): the theorem applied to `stAliceBob` and the absent
identity "zz". -/
theorem C5_witness :
    inspectionStartHandler stAliceBob "m1" "zz" = (stAliceBob, [])
    ∧ admitHandler stAliceBob "m1" "zz" = (stAliceBob, [])
    ∧ removeHandler stAliceBob "m1" "zz" = (stAliceBob, [])
    ∧ cancelHandler stAliceBob "m1" "zz" = (stAliceBob, []) :=
  C5_absent_noop stAliceBob "m1" "zz" (by decide)

/-- C6: a transport disconnect of address `a` removes the (at most one —
hypotheses `hp`, `huniq`) participant bound to `a` regardless of its
status, removes `a` from the moderator set, broadcasts the updated registry
(without that participant) exactly to the remaining moderators, and admit
and remove on the purged identity are afterwards no-ops (given registry
keys are unique, `hids`, as in a JavaScript Map). -/
theorem C6_disconnect_purge (st : ServerState) (a sock : String) (p : Participant)
    (hids : (st.participants.map (fun q => q.id)).Nodup)
    (hp : st.participants.find? (fun q => q.socketId == a) = some p)
    (huniq : (st.participants.filter (fun q => q.socketId == a)).length ≤ 1) :
    (disconnectHandler st a).1.participants =
        st.participants.filter (fun q => !(q.socketId == a))
    ∧ (disconnectHandler st a).1.moderators =
        st.moderators.filter (fun m => !(m == a))
    ∧ (disconnectHandler st a).2 =
        (disconnectHandler st a).1.moderators.map (fun m =>
          ServerMsg.queueUpdate m (disconnectHandler st a).1.participants)
    ∧ admitHandler (disconnectHandler st a).1 sock p.id =
        ((disconnectHandler st a).1, [])
    ∧ removeHandler (disconnectHandler st a).1 sock p.id =
        ((disconnectHandler st a).1, []) := by
  have hrm := removeFirst_eq_filter st.participants a huniq
  have hpmem : p ∈ st.participants := List.mem_of_find?_eq_some hp
  have hfs := List.find?_some hp
  have hpa : p.socketId = a := by simpa using hfs
  have hparts : (disconnectHandler st a).1.participants =
      st.participants.filter (fun q => !(q.socketId == a)) := by
    simp only [disconnectHandler, hp, hrm]
  have hnone : mapGet (disconnectHandler st a).1.participants p.id = none := by
    rw [hparts]
    exact mapGet_none_after_remove st.participants a p hids hpmem hpa
  refine ⟨hparts, ?_, ?_, (noop_of_absent _ sock p.id hnone).2.1,
    (noop_of_absent _ sock p.id hnone).2.2.1⟩
  · simp only [disconnectHandler, hp, setDeleteStr]
  · simp only [disconnectHandler, hp, setDeleteStr, hrm]

/-- C6 (witness): the theorem applied to `stAliceBob` and Alice's transport
address "sA". -/
theorem C6_witness :
    (disconnectHandler stAliceBob "sA").1.participants =
        stAliceBob.participants.filter (fun q => !(q.socketId == "sA"))
    ∧ (disconnectHandler stAliceBob "sA").1.moderators =
        stAliceBob.moderators.filter (fun m => !(m == "sA"))
    ∧ (disconnectHandler stAliceBob "sA").2 =
        (disconnectHandler stAliceBob "sA").1.moderators.map (fun m =>
          ServerMsg.queueUpdate m (disconnectHandler stAliceBob "sA").1.participants)
    ∧ admitHandler (disconnectHandler stAliceBob "sA").1 "m1" "a" =
        ((disconnectHandler stAliceBob "sA").1, [])
    ∧ removeHandler (disconnectHandler stAliceBob "sA").1 "m1" "a" =
        ((disconnectHandler stAliceBob "sA").1, []) :=
  C6_disconnect_purge stAliceBob "sA" "m1"
    { id := "a", name := "Alice", browser := "ff", os := "linux",
      deviceType := "desktop", status := Status.waiting, socketId := "sA" }
    (by decide) (by decide) (by decide)

/-- C7: `handleAnswer` applies the remote description and reaches the
`stable` signaling phase exactly when the engine is in `have-local-offer`;
with no peer connection, or in any other phase, the answer is ignored and
the engine is returned unchanged (the handler is total — errors are caught
and logged, never raised). -/
theorem C7_answer_only_have_local_offer (e : Engine) (a : String) :
    (∀ pc, e.peerConnection = some pc →
        pc.signalingState = SignalingPhase.haveLocalOffer →
        handleAnswer e a =
          { e with
            peerConnection := some ({ pc with
                                      remoteDesc := some a,
                                      signalingState := SignalingPhase.stable }) })
    ∧ (e.peerConnection = none → handleAnswer e a = e)
    ∧ (∀ pc, e.peerConnection = some pc →
        pc.signalingState ≠ SignalingPhase.haveLocalOffer →
        handleAnswer e a = e) := by
  refine ⟨?_, ?_, ?_⟩
  · intro pc hpc hs
    simp [handleAnswer, hpc, hs]
  · intro hn
    simp [handleAnswer, hn]
  · intro pc hpc hs
    simp [handleAnswer, hpc, hs]

/-- C7 (witness): the theorem applied to `engHaveLocalOffer` (answer
applied, phase becomes stable), `engStableRemote` (ignored) and `engNoPc`
(ignored). -/
theorem C7_witness :
    enginePhase (handleAnswer engHaveLocalOffer "ans") =
        some SignalingPhase.stable
    ∧ handleAnswer engStableRemote "ans" = engStableRemote
    ∧ handleAnswer engNoPc "ans" = engNoPc := by
  refine ⟨?_, ?_, ?_⟩
  · rw [(C7_answer_only_have_local_offer engHaveLocalOffer "ans").1 _ rfl rfl]
    decide
  · exact (C7_answer_only_have_local_offer engStableRemote "ans").2.2 _ rfl
      (by decide)
  · exact (C7_answer_only_have_local_offer engNoPc "ans").2.1 rfl

/-- C8: the `isProcessingOffer` re-entrancy guard: an offer arriving while
a previous `handleOffer` call is still in flight (the flag is set) is
dropped at entry — the engine state is returned untouched and no answer is
transmitted. -/
theorem C8_offer_reentrancy_guard (e : Engine) (offer src : String)
    (h : e.isProcessingOffer = true) :
    handleOffer e offer src = (e, []) := by
  simp [handleOffer, h]

/-- C8 (witness): the theorem applied to `engBusy`, an engine whose guard
flag is set. -/
theorem C8_witness : handleOffer engBusy "offer2" "peer2" = (engBusy, []) :=
  C8_offer_reentrancy_guard engBusy "offer2" "peer2" rfl

/-- C9: `moderator:connect` is idempotent on the moderator set — connecting
the same address twice yields exactly the state of connecting it once — the
address is in the set afterwards, and the participant registry (every
record and its queue position) is left completely unchanged. -/
theorem C9_moderator_connect_frame (st : ServerState) (a : String) :
    (moderatorConnectHandler st a).1.participants = st.participants
    ∧ (moderatorConnectHandler (moderatorConnectHandler st a).1 a).1 =
        (moderatorConnectHandler st a).1
    ∧ a ∈ (moderatorConnectHandler st a).1.moderators := by
  have key : setAddStr (setAddStr st.moderators a) a = setAddStr st.moderators a := by
    simp only [setAddStr]
    by_cases h : a ∈ st.moderators
    · simp [h]
    · simp [h]
  have hmem : a ∈ setAddStr st.moderators a := by
    simp only [setAddStr]
    by_cases h : a ∈ st.moderators
    · simp [h]
    · simp [h]
  refine ⟨rfl, ?_, hmem⟩
  simp only [moderatorConnectHandler, key]

/-- C10: `queue:request` is a pure read-only query — the coordinator state
is returned unchanged (in particular the requester is not added to the
moderator set), and the only emission is the full registry snapshot sent
back to the requester. -/
theorem C10_queue_request_readonly (st : ServerState) (a : String) :
    (queueRequestHandler st a).1 = st
    ∧ (queueRequestHandler st a).2 = [ServerMsg.queueUpdate a st.participants]
    ∧ (queueRequestHandler st a).2.all (fun m => m.target == a) = true := by
  refine ⟨rfl, rfl, ?_⟩
  simp [queueRequestHandler, ServerMsg.target]
